import Mathlib

set_option maxRecDepth 8192

/-!
Verification of the hint-dispatch / execution-driver core of the
`cairo-foundry` execute command (`src/cli/commands/execute.rs`).

The repository code under `src/` is embedded directly (the `is_json`
validator, the `ExecuteOutput` sink with its `Write` and `Display`
implementations, the `greater_than_hint` callback, and the `exec` driver).
External collaborators from the `cairo_rs` crate (`cairo_run`,
`write_output`, `get_integer_from_var_name`) are modelled from the spec's
description of them (§4.1, §4.2, §4.3, §6); process-level effects
(`println!` writing to stdout) and the sequence of dispatched hints are
made explicit components of the result so that observable behaviour can
be stated.
-/

namespace CairoFoundry

/-! ### Path validation: `is_json` -/

/-- Model of a `std::path::PathBuf` as seen by `is_json`: its display
string together with the three observations the validator makes of the
file system (`exists()`, `is_file()`, `extension()`). -/
structure PathBuf where
  display : String
  exists_ : Bool
  isFile : Bool
  extension : Option String
deriving DecidableEq, Repr

/-- Embedding of `is_json` (execute.rs lines 30-40): accept the path when
it exists, is a regular file and its extension equals `"json"`; otherwise
report one of the two error messages of the source. -/
def is_json (path : PathBuf) : Except String PathBuf :=
  if path.exists_ && path.isFile then
    match path.extension with
    | some ext =>
      if ext = "json" then Except.ok path
      else Except.error ("\"" ++ path.display ++ "\" is not a json file")
    | none => Except.error ("\"" ++ path.display ++ "\" is not a json file")
  else
    Except.error ("\"" ++ path.display ++ "\" is not a valid file")

/-! ### The output sink: `ExecuteOutput` -/

/-- Embedding of `ExecuteOutput(Vec<u8>)` (execute.rs line 44): the
captured output-sink bytes. Bytes are machine `u8` values, represented as
`Nat` (all bytes produced by the embedded code are < 256). -/
structure ExecuteOutput where
  bytes : List Nat
deriving DecidableEq, Repr

/-- Embedding of `impl Write for ExecuteOutput` (execute.rs lines 46-54):
`Vec::<u8>::write` appends the whole buffer and returns its length. -/
def ExecuteOutput.write (o : ExecuteOutput) (buf : List Nat) : ExecuteOutput × Nat :=
  (⟨o.bytes ++ buf⟩, buf.length)

/-- Write a sequence of buffers into the sink, in order. -/
def ExecuteOutput.writeAll (o : ExecuteOutput) : List (List Nat) → ExecuteOutput
  | [] => o
  | c :: cs => ExecuteOutput.writeAll (o.write c).1 cs

theorem ExecuteOutput.writeAll_eq (o : ExecuteOutput) (cs : List (List Nat)) :
    o.writeAll cs = ExecuteOutput.mk (o.bytes ++ cs.flatten) := by
  induction cs generalizing o with
  | nil => simp [ExecuteOutput.writeAll]
  | cons c cs ih =>
    simp [ExecuteOutput.writeAll, ExecuteOutput.write, ih, List.flatten,
      List.append_assoc]

/-! ### UTF-8, for `impl Display for ExecuteOutput`

The `Display` implementation (execute.rs lines 56-67) calls
`std::str::from_utf8` on the captured bytes and maps a decoding failure to
`std::fmt::Error`. `from_utf8` is Rust standard-library code; it is
embedded here as an executable UTF-8 decoder over byte lists, together
with the standard scalar-value encoder used to state validity. -/

/-- A Unicode scalar value: a code point outside the surrogate range. -/
def isValidScalar (c : Nat) : Bool :=
  decide (c < 0x110000) && (decide (c < 0xD800) || decide (0xE000 ≤ c))

/-- UTF-8 encoding of one scalar value. -/
def encodeChar (c : Nat) : List Nat :=
  if c < 0x80 then [c]
  else if c < 0x800 then [0xC0 + c / 0x40, 0x80 + c % 0x40]
  else if c < 0x10000 then
    [0xE0 + c / 0x1000, 0x80 + c / 0x40 % 0x40, 0x80 + c % 0x40]
  else
    [0xF0 + c / 0x40000, 0x80 + c / 0x1000 % 0x40, 0x80 + c / 0x40 % 0x40,
      0x80 + c % 0x40]

/-- UTF-8 encoding of a sequence of scalar values. -/
def encodeUtf8 : List Nat → List Nat
  | [] => []
  | c :: cs => encodeChar c ++ encodeUtf8 cs

/-- A UTF-8 continuation byte. -/
def isCont (b : Nat) : Bool := decide (0x80 ≤ b) && decide (b < 0xC0)

/-- Decode one scalar value from the front of a byte list, returning it
with the remaining bytes. Mirrors the validation performed by
`std::str::from_utf8`: rejects overlong forms, surrogates, and code
points above `0x10FFFF`. -/
def decodeOne : List Nat → Option (Nat × List Nat)
  | [] => none
  | b :: rest =>
    if b < 0x80 then some (b, rest)
    else if b < 0xC2 then none
    else if b < 0xE0 then
      match rest with
      | b1 :: r =>
        if isCont b1 then some ((b - 0xC0) * 0x40 + (b1 - 0x80), r) else none
      | [] => none
    else if b < 0xF0 then
      match rest with
      | b1 :: b2 :: r =>
        if isCont b1 && isCont b2 then
          if 0x800 ≤ (b - 0xE0) * 0x1000 + (b1 - 0x80) * 0x40 + (b2 - 0x80) ∧
              ¬(0xD800 ≤ (b - 0xE0) * 0x1000 + (b1 - 0x80) * 0x40 + (b2 - 0x80) ∧
                (b - 0xE0) * 0x1000 + (b1 - 0x80) * 0x40 + (b2 - 0x80) < 0xE000) then
            some ((b - 0xE0) * 0x1000 + (b1 - 0x80) * 0x40 + (b2 - 0x80), r)
          else none
        else none
      | _ => none
    else if b < 0xF5 then
      match rest with
      | b1 :: b2 :: b3 :: r =>
        if isCont b1 && isCont b2 && isCont b3 then
          if 0x10000 ≤ (b - 0xF0) * 0x40000 + (b1 - 0x80) * 0x1000 +
                (b2 - 0x80) * 0x40 + (b3 - 0x80) ∧
              (b - 0xF0) * 0x40000 + (b1 - 0x80) * 0x1000 +
                (b2 - 0x80) * 0x40 + (b3 - 0x80) < 0x110000 then
            some ((b - 0xF0) * 0x40000 + (b1 - 0x80) * 0x1000 +
              (b2 - 0x80) * 0x40 + (b3 - 0x80), r)
          else none
        else none
      | _ => none
    else none

theorem decodeOne_length :
    ∀ l c r, decodeOne l = some (c, r) → r.length < l.length := by
  intro l c r h
  match l with
  | [] => simp [decodeOne] at h
  | b :: rest =>
    simp only [decodeOne] at h
    repeat' split at h
    all_goals simp at h
    all_goals obtain ⟨h1, h2⟩ := h
    all_goals subst h2
    all_goals simp only [List.length_cons]
    all_goals omega

/-- Decode a full byte list as UTF-8: the embedding of
`std::str::from_utf8`, returning the decoded scalar values or `none` on
invalid input. -/
def decodeUtf8 (l : List Nat) : Option (List Nat) :=
  match hl : decodeOne l with
  | some (c, r) => (decodeUtf8 r).map (c :: ·)
  | none => if l = [] then some [] else none
termination_by l.length
decreasing_by exact decodeOne_length l c r hl

theorem decodeUtf8_some (l : List Nat) (c : Nat) (r : List Nat)
    (h : decodeOne l = some (c, r)) :
    decodeUtf8 l = (decodeUtf8 r).map (c :: ·) := by
  rw [decodeUtf8]
  split
  · rename_i c' r' hl
    have hcr := hl.symm.trans h
    simp only [Option.some.injEq, Prod.mk.injEq] at hcr
    rw [hcr.1, hcr.2]
  · rename_i hl
    rw [hl] at h
    exact Option.noConfusion h

theorem decodeUtf8_nil : decodeUtf8 [] = some [] := by
  rw [decodeUtf8]
  split
  · rename_i c r hl
    simp [decodeOne] at hl
  · simp

theorem decodeUtf8_none (l : List Nat) (h : decodeOne l = none) (h2 : l ≠ []) :
    decodeUtf8 l = none := by
  rw [decodeUtf8]
  split
  · rename_i c r hl
    rw [h] at hl
    exact Option.noConfusion hl
  · simp [h2]

theorem decodeOne_encodeChar (c : Nat) (h : isValidScalar c = true)
    (rest : List Nat) : decodeOne (encodeChar c ++ rest) = some (c, rest) := by
  have hv : c < 0x110000 ∧ (c < 0xD800 ∨ 0xE000 ≤ c) := by
    simpa [isValidScalar] using h
  by_cases h1 : c < 0x80
  · simp [encodeChar, decodeOne, h1]
  · by_cases h2 : c < 0x800
    · have e : encodeChar c = [0xC0 + c / 0x40, 0x80 + c % 0x40] := by
        simp [encodeChar, h1, h2]
      rw [e]
      simp only [List.cons_append, List.nil_append, decodeOne, isCont]
      have hb1 : ¬(0xC0 + c / 0x40 < 0x80) := by omega
      have hb2 : ¬(0xC0 + c / 0x40 < 0xC2) := by omega
      have hb3 : 0xC0 + c / 0x40 < 0xE0 := by omega
      have hc : (decide (0x80 ≤ 0x80 + c % 0x40) && decide (0x80 + c % 0x40 < 0xC0)) = true := by
        simp
        omega
      simp only [hb1, hb2, hb3, hc, if_false, if_true, ite_false, ite_true]
      simp only [Option.some.injEq, Prod.mk.injEq]
      refine ⟨by omega, by trivial⟩
    · by_cases h3 : c < 0x10000
      · have e : encodeChar c =
            [0xE0 + c / 0x1000, 0x80 + c / 0x40 % 0x40, 0x80 + c % 0x40] := by
          simp [encodeChar, h1, h2, h3]
        rw [e]
        simp only [List.cons_append, List.nil_append, decodeOne, isCont]
        have hb1 : ¬(0xE0 + c / 0x1000 < 0x80) := by omega
        have hb2 : ¬(0xE0 + c / 0x1000 < 0xC2) := by omega
        have hb3 : ¬(0xE0 + c / 0x1000 < 0xE0) := by omega
        have hb4 : 0xE0 + c / 0x1000 < 0xF0 := by omega
        have hc1 : (decide (0x80 ≤ 0x80 + c / 0x40 % 0x40) &&
            decide (0x80 + c / 0x40 % 0x40 < 0xC0)) = true := by
          simp
          omega
        have hc2 : (decide (0x80 ≤ 0x80 + c % 0x40) &&
            decide (0x80 + c % 0x40 < 0xC0)) = true := by
          simp
          omega
        have hval : (0xE0 + c / 0x1000 - 0xE0) * 0x1000 +
            (0x80 + c / 0x40 % 0x40 - 0x80) * 0x40 + (0x80 + c % 0x40 - 0x80) = c := by
          omega
        simp only [hb1, hb2, hb3, hb4, hc1, hc2, Bool.and_true, if_false, if_true,
          ite_false, ite_true, hval]
        have hguard : 0x800 ≤ c ∧ ¬(0xD800 ≤ c ∧ c < 0xE000) := by omega
        rw [if_pos hguard]
      · have e : encodeChar c =
            [0xF0 + c / 0x40000, 0x80 + c / 0x1000 % 0x40, 0x80 + c / 0x40 % 0x40,
              0x80 + c % 0x40] := by
          simp [encodeChar, h1, h2, h3]
        rw [e]
        simp only [List.cons_append, List.nil_append, decodeOne, isCont]
        have hb1 : ¬(0xF0 + c / 0x40000 < 0x80) := by omega
        have hb2 : ¬(0xF0 + c / 0x40000 < 0xC2) := by omega
        have hb3 : ¬(0xF0 + c / 0x40000 < 0xE0) := by omega
        have hb4 : ¬(0xF0 + c / 0x40000 < 0xF0) := by omega
        have hb5 : 0xF0 + c / 0x40000 < 0xF5 := by omega
        have hc1 : (decide (0x80 ≤ 0x80 + c / 0x1000 % 0x40) &&
            decide (0x80 + c / 0x1000 % 0x40 < 0xC0)) = true := by
          simp
          omega
        have hc2 : (decide (0x80 ≤ 0x80 + c / 0x40 % 0x40) &&
            decide (0x80 + c / 0x40 % 0x40 < 0xC0)) = true := by
          simp
          omega
        have hc3 : (decide (0x80 ≤ 0x80 + c % 0x40) &&
            decide (0x80 + c % 0x40 < 0xC0)) = true := by
          simp
          omega
        have hval : (0xF0 + c / 0x40000 - 0xF0) * 0x40000 +
            (0x80 + c / 0x1000 % 0x40 - 0x80) * 0x1000 +
            (0x80 + c / 0x40 % 0x40 - 0x80) * 0x40 + (0x80 + c % 0x40 - 0x80) = c := by
          omega
        simp only [hb1, hb2, hb3, hb4, hb5, hc1, hc2, hc3, Bool.and_true, if_false,
          if_true, ite_false, ite_true, hval]
        have hguard : 0x10000 ≤ c ∧ c < 0x110000 := by omega
        exact if_pos hguard

theorem decodeUtf8_encodeUtf8 (cs : List Nat)
    (h : ∀ c ∈ cs, isValidScalar c = true) :
    decodeUtf8 (encodeUtf8 cs) = some cs := by
  induction cs with
  | nil => simpa [encodeUtf8] using decodeUtf8_nil
  | cons c cs ih =>
    have hc : isValidScalar c = true := h c (by simp)
    have hcs : ∀ x ∈ cs, isValidScalar x = true := fun x hx => h x (by simp [hx])
    calc decodeUtf8 (encodeUtf8 (c :: cs))
        = decodeUtf8 (encodeChar c ++ encodeUtf8 cs) := by rw [encodeUtf8]
      _ = (decodeUtf8 (encodeUtf8 cs)).map (c :: ·) :=
          decodeUtf8_some _ c _ (decodeOne_encodeChar c hc (encodeUtf8 cs))
      _ = some (c :: cs) := by rw [ih hcs]; rfl

theorem decodeOne_sound :
    ∀ l c r, decodeOne l = some (c, r) →
      encodeChar c ++ r = l ∧ isValidScalar c = true := by
  intro l c r h
  match l with
  | [] => simp [decodeOne] at h
  | b :: rest =>
    by_cases hA : b < 0x80
    · simp [decodeOne, hA] at h
      obtain ⟨h1, h2⟩ := h
      subst h1
      subst h2
      constructor
      · simp [encodeChar, hA]
      · simp only [isValidScalar, Bool.and_eq_true, Bool.or_eq_true, decide_eq_true_eq]
        omega
    · by_cases hB : b < 0xC2
      · simp [decodeOne, hA, hB] at h
      · by_cases hC : b < 0xE0
        · match rest with
          | [] => simp [decodeOne, hA, hB, hC] at h
          | b1 :: r1 =>
            by_cases hcont : isCont b1 = true
            · simp only [decodeOne, hA, hB, hC, hcont, if_false, if_true, ite_false,
                ite_true, Option.some.injEq, Prod.mk.injEq] at h
              obtain ⟨h1, h2⟩ := h
              subst h1
              subst h2
              simp only [isCont, Bool.and_eq_true, decide_eq_true_eq] at hcont
              constructor
              · rw [encodeChar, if_neg (by omega), if_pos (by omega)]
                simp only [List.cons_append, List.nil_append, List.cons.injEq]
                exact ⟨by omega, by omega, trivial⟩
              · simp only [isValidScalar, Bool.and_eq_true, Bool.or_eq_true,
                  decide_eq_true_eq]
                omega
            · simp [decodeOne, hA, hB, hC, hcont] at h
        · by_cases hD : b < 0xF0
          · match rest with
            | [] => simp [decodeOne, hA, hB, hC, hD] at h
            | [b1] => simp [decodeOne, hA, hB, hC, hD] at h
            | b1 :: b2 :: r1 =>
              by_cases hcont : (isCont b1 && isCont b2) = true
              · simp only [decodeOne, hA, hB, hC, hD, hcont, if_false, if_true,
                  ite_false, ite_true] at h
                split at h
                · rename_i hg
                  simp only [Option.some.injEq, Prod.mk.injEq] at h
                  obtain ⟨h1, h2⟩ := h
                  subst h1
                  subst h2
                  simp only [isCont, Bool.and_eq_true, decide_eq_true_eq] at hcont
                  constructor
                  · rw [encodeChar, if_neg (by omega), if_neg (by omega), if_pos (by omega)]
                    simp only [List.cons_append, List.nil_append, List.cons.injEq]
                    exact ⟨by omega, by omega, by omega, trivial⟩
                  · simp only [isValidScalar, Bool.and_eq_true, Bool.or_eq_true,
                      decide_eq_true_eq]
                    omega
                · exact Option.noConfusion h
              · simp [decodeOne, hA, hB, hC, hD, hcont] at h
          · by_cases hE : b < 0xF5
            · match rest with
              | [] => simp [decodeOne, hA, hB, hC, hD, hE] at h
              | [b1] => simp [decodeOne, hA, hB, hC, hD, hE] at h
              | [b1, b2] => simp [decodeOne, hA, hB, hC, hD, hE] at h
              | b1 :: b2 :: b3 :: r1 =>
                by_cases hcont : (isCont b1 && isCont b2 && isCont b3) = true
                · simp only [decodeOne, hA, hB, hC, hD, hE, hcont, if_false, if_true,
                    ite_false, ite_true] at h
                  split at h
                  · rename_i hg
                    simp only [Option.some.injEq, Prod.mk.injEq] at h
                    obtain ⟨h1, h2⟩ := h
                    subst h1
                    subst h2
                    simp only [isCont, Bool.and_eq_true, decide_eq_true_eq] at hcont
                    constructor
                    · rw [encodeChar, if_neg (by omega), if_neg (by omega),
                        if_neg (by omega)]
                      simp only [List.cons_append, List.nil_append, List.cons.injEq]
                      exact ⟨by omega, by omega, by omega, by omega, trivial⟩
                    · simp only [isValidScalar, Bool.and_eq_true, Bool.or_eq_true,
                        decide_eq_true_eq]
                      omega
                  · exact Option.noConfusion h
                · simp [decodeOne, hA, hB, hC, hD, hE, hcont] at h
            · simp [decodeOne, hA, hB, hC, hD, hE] at h

theorem decodeUtf8_sound_aux (n : Nat) :
    ∀ l, l.length ≤ n → ∀ cs, decodeUtf8 l = some cs →
      encodeUtf8 cs = l ∧ ∀ c ∈ cs, isValidScalar c = true := by
  induction n with
  | zero =>
    intro l hl cs h
    have hnil : l = [] := by
      cases l with
      | nil => rfl
      | cons b rest => simp only [List.length_cons] at hl; omega
    subst hnil
    rw [decodeUtf8_nil] at h
    simp only [Option.some.injEq] at h
    subst h
    exact ⟨rfl, by simp⟩
  | succ n ih =>
    intro l hl cs h
    cases hdo : decodeOne l with
    | none =>
      by_cases hnil : l = []
      · subst hnil
        rw [decodeUtf8_nil] at h
        simp only [Option.some.injEq] at h
        subst h
        exact ⟨rfl, by simp⟩
      · rw [decodeUtf8_none l hdo hnil] at h
        exact Option.noConfusion h
    | some p =>
      obtain ⟨c, r⟩ := p
      rw [decodeUtf8_some l c r hdo] at h
      cases hr : decodeUtf8 r with
      | none => rw [hr] at h; exact Option.noConfusion h
      | some cs' =>
        rw [hr] at h
        simp only [Option.map_some', Option.some.injEq] at h
        subst h
        have hlen : r.length < l.length := decodeOne_length l c r hdo
        have hrec := ih r (by omega) cs' hr
        have hone := decodeOne_sound l c r hdo
        refine ⟨?_, ?_⟩
        · rw [encodeUtf8, hrec.1, hone.1]
        · intro x hx
          cases hx with
          | head => exact hone.2
          | tail _ hx2 => exact hrec.2 x hx2

theorem decodeUtf8_sound (l : List Nat) (cs : List Nat)
    (h : decodeUtf8 l = some cs) :
    encodeUtf8 cs = l ∧ ∀ c ∈ cs, isValidScalar c = true :=
  decodeUtf8_sound_aux l.length l (Nat.le_refl _) cs h

/-- `std::fmt::Error`, the error returned by a failing `Display`. -/
inductive FmtError
  | fmtError
deriving DecidableEq, Repr

/-- Embedding of `impl Display for ExecuteOutput` (execute.rs lines 56-67):
decode the captured bytes with `from_utf8`; on success render exactly the
decoded text, on failure return `std::fmt::Error`. The rendered text is
represented by its scalar values. -/
def ExecuteOutput.display (o : ExecuteOutput) : Except FmtError (List Nat) :=
  match decodeUtf8 o.bytes with
  | some cs => Except.ok cs
  | none => Except.error FmtError.fmtError

/-! ### The hint subsystem

`greater_than_hint` (execute.rs lines 98-108) receives a `VMProxy`, an
`ExecutionScopesProxy`, the instruction's identifier table and its
`ApTracking`, resolves `a` and `b` with `get_integer_from_var_name` and
executes `println!("{}", a > b)` — which writes to the process stdout.

`get_integer_from_var_name` belongs to the external `cairo_rs` crate; it
is modelled from the spec (§4.1): look the identifier up in the
instruction's tracking metadata (failing with `UnknownIdentifier`),
compute its address as `fp + offset` or as an ap-relative address
corrected by the tracking data (the group id disambiguates which
ap-adjustment epoch applies), then dereference, failing with
`UninitializedMemory` on an unwritten cell and `TypeMismatch` on a
relocatable reference where a numeric value is required. -/

/-- A VM memory cell: a numeric value or a relocatable reference. -/
inductive MaybeRelocatable
  | int (v : Int)
  | relocatable (segment : Nat) (offset : Nat)
deriving DecidableEq, Repr

/-- VM memory: written cells of the execution segment, indexed by
address. Unlisted addresses have never been written. -/
structure Memory where
  cells : List (Int × MaybeRelocatable)
deriving DecidableEq, Repr

/-- Read a cell; `none` for an address that has never been written. -/
def Memory.get (m : Memory) (addr : Int) : Option MaybeRelocatable :=
  match m.cells.find? (fun p => p.1 = addr) with
  | some p => some p.2
  | none => none

/-- The VM registers: allocation pointer, frame pointer, program
counter. -/
structure RegisterState where
  ap : Int
  fp : Int
  pc : Int
deriving DecidableEq, Repr

/-- The scoped view over memory and registers handed to a hint
callback. -/
structure VMProxy where
  memory : Memory
  registers : RegisterState
deriving DecidableEq, Repr

/-- The stack of named-variable bindings local to hint invocations. -/
structure ExecutionScopes where
  stack : List (List (String × Int))
deriving DecidableEq, Repr

/-- Per-instruction ap-tracking metadata: epoch group and ap offset. -/
structure ApTracking where
  group : Nat
  offset : Nat
deriving DecidableEq, Repr

/-- The register a variable reference is relative to. -/
inductive Register
  | AP
  | FP
deriving DecidableEq, Repr

/-- A compile-time variable reference: base register, offset, and the
ap-tracking data captured when the reference was created. -/
structure HintReference where
  register : Register
  offset : Int
  apTracking : ApTracking
deriving DecidableEq, Repr

/-- The resolver and dispatch failures of the modelled `cairo_rs`
subsystem. -/
inductive VirtualMachineError
  | unknownIdentifier (name : String)
  | apTrackingMismatch
  | uninitializedMemory (addr : Int)
  | typeMismatch (addr : Int)
deriving DecidableEq, Repr

/-- Human-readable description of a `VirtualMachineError`, as embedded in
the driver's error strings. -/
def VirtualMachineError.describe : VirtualMachineError → String
  | VirtualMachineError.unknownIdentifier name => "Unknown identifier " ++ name
  | VirtualMachineError.apTrackingMismatch => "ap tracking data mismatch"
  | VirtualMachineError.uninitializedMemory _ => "Memory get: uninitialized address"
  | VirtualMachineError.typeMismatch _ => "Expected an integer value"

/-- Modelled from the spec (§4.1): the concrete address of a variable
reference, `fp + offset` for frame-relative references, or the
tracking-corrected ap-relative address when the epoch groups agree. -/
def compute_addr_from_reference (regs : RegisterState) (apt : ApTracking)
    (ref : HintReference) : Except VirtualMachineError Int :=
  match ref.register with
  | Register.FP => Except.ok (regs.fp + ref.offset)
  | Register.AP =>
    if ref.apTracking.group = apt.group then
      Except.ok (regs.ap - (Int.ofNat apt.offset - Int.ofNat ref.apTracking.offset)
        + ref.offset)
    else Except.error VirtualMachineError.apTrackingMismatch

/-- Assoc-list lookup by exact string equality, as the `HashMap` lookups
of the source behave on their keys. -/
def lookupStr {α : Type} (key : String) : List (String × α) → Option α
  | [] => none
  | (k, v) :: rest => if k = key then some v else lookupStr key rest

/-- Modelled from the spec (§4.1): `get_integer_from_var_name` of
`cairo_rs` — resolve an identifier to its numeric value using the current
registers and the instruction's tracking metadata. -/
def get_integer_from_var_name (name : String) (vm : VMProxy)
    (ids_data : List (String × HintReference)) (ap_tracking : ApTracking) :
    Except VirtualMachineError Int :=
  match lookupStr name ids_data with
  | none => Except.error (VirtualMachineError.unknownIdentifier name)
  | some ref =>
    match compute_addr_from_reference vm.registers ap_tracking ref with
    | Except.error e => Except.error e
    | Except.ok addr =>
      match vm.memory.get addr with
      | none => Except.error (VirtualMachineError.uninitializedMemory addr)
      | some (MaybeRelocatable.int v) => Except.ok v
      | some (MaybeRelocatable.relocatable _ _) =>
        Except.error (VirtualMachineError.typeMismatch addr)

/-- The state a hint invocation can observe and affect: the VM proxy, the
execution-scope stack, and — because the source's callback calls
`println!` — the process-level stdout byte stream, kept separate from the
`ExecuteOutput` sink. -/
structure HintState where
  vm : VMProxy
  scopes : ExecutionScopes
  stdout : List Nat
deriving DecidableEq, Repr

/-- The bytes of an ASCII string. -/
def asciiBytes (s : String) : List Nat := s.data.map Char.toNat

/-- Embedding of `greater_than_hint` (execute.rs lines 98-108): resolve
`a` and `b`, then `println!("{}", a > b)` — append the comparison text
and a newline to the process stdout. The `ExecutionScopesProxy` argument
of the source is ignored by the callback; here it is part of the threaded
`HintState`. -/
def greater_than_hint (st : HintState) (ids_data : List (String × HintReference))
    (ap_tracking : ApTracking) : Except VirtualMachineError HintState :=
  match get_integer_from_var_name "a" st.vm ids_data ap_tracking with
  | Except.error e => Except.error e
  | Except.ok a =>
    match get_integer_from_var_name "b" st.vm ids_data ap_tracking with
    | Except.error e => Except.error e
    | Except.ok b =>
      Except.ok { st with
        stdout := st.stdout ++ asciiBytes (if a > b then "true" else "false") ++ [10] }

/-! ### The execution driver

`exec` (execute.rs lines 70-95) registers `greater_than_hint` under the
exact source string `"print(ids.a > ids.b)"`, calls the external
`cairo_run`, and on success serialises the runner's output into a fresh
`ExecuteOutput` via `write_output`. `cairo_run` and `write_output` are
modelled from the spec (§4.2, §4.3): the loader may fail
(`InvalidInput`-style deserialization error); a loaded program carries
the hint-bearing instruction occurrences in order, the state created at
load, and the output the interpreter produces; dispatch is by exact
string match, an unregistered hint is inert, and the first callback
failure aborts the run. The process stdout and the trace of dispatched
hint sources are returned alongside so that observable behaviour can be
stated. -/

/-- A registered native hint callback. -/
structure HintFunc where
  f : HintState → List (String × HintReference) → ApTracking →
    Except VirtualMachineError HintState

/-- One hint-bearing instruction occurrence: its embedded hint source
text and the instruction's tracking metadata. -/
structure HintCall where
  code : String
  ids_data : List (String × HintReference)
  ap_tracking : ApTracking

/-- Modelled from the spec (§4.3, §6): a loaded compiled program, as the
dispatch subsystem observes it — the state created at load, the ordered
hint-bearing instruction occurrences, the output byte chunks the
interpreter writes for it, and whether serialising that output fails. -/
structure CairoProgram where
  initState : HintState
  hintCalls : List HintCall
  outputChunks : List (List Nat)
  writeError : Option String

/-- Modelled from the spec (§6): a program file — the path it was loaded
from and the result of deserializing it (`Except.error` for a malformed
file, e.g. an odd-length hex literal). -/
structure ProgramFile where
  path : String
  load : Except String CairoProgram

/-- The runner returned by a successful `cairo_run`. -/
structure CairoRunner where
  outputChunks : List (List Nat)
  writeError : Option String

/-- Modelled from the spec (§4.2): dispatch the hint-bearing instructions
in order. A hint source with no registered callback is inert; the first
callback failure aborts. Returns the failure (if any), the final state,
and the trace of dispatched hint sources. -/
def runHints (processor : List (String × HintFunc)) (st : HintState) :
    List HintCall → Option VirtualMachineError × HintState × List String
  | [] => (none, st, [])
  | call :: rest =>
    match lookupStr call.code processor with
    | none => runHints processor st rest
    | some hf =>
      match hf.f st call.ids_data call.ap_tracking with
      | Except.error e => (some e, st, [call.code])
      | Except.ok st' =>
        match runHints processor st' rest with
        | (res, stFin, tr) => (res, stFin, call.code :: tr)

/-- Modelled from the spec (§4.3): load the program, dispatch its hints,
and return the runner on success or the first error. The second and
third components are the process stdout produced by the run and the
dispatched-hint trace. -/
def cairo_run (file : ProgramFile) (entrypoint : String) (trace : Bool)
    (processor : List (String × HintFunc)) :
    Except String CairoRunner × List Nat × List String :=
  match file.load with
  | Except.error e => (Except.error e, [], [])
  | Except.ok prog =>
    match runHints processor prog.initState prog.hintCalls with
    | (some e, st, tr) => (Except.error e.describe, st.stdout, tr)
    | (none, st, tr) =>
      (Except.ok ⟨prog.outputChunks, prog.writeError⟩, st.stdout, tr)

/-- Modelled from the spec (§4.3): `write_output` writes the runner's
output chunks, in order, into the given sink through its `Write`
implementation, or fails with the runner's write error. -/
def CairoRunner.write_output (r : CairoRunner) (o : ExecuteOutput) :
    Except String ExecuteOutput :=
  match r.writeError with
  | some e => Except.error e
  | none => Except.ok (o.writeAll r.outputChunks)

/-- The hint source string registered by `exec`. -/
def hint_code : String := "print(ids.a > ids.b)"

/-- The `ExecuteArgs` CLI arguments: the validated program path. -/
structure ExecuteArgs where
  program : ProgramFile

/-- Embedding of `exec` (execute.rs lines 70-95): register
`greater_than_hint` under `hint_code`, run the program, and on success
serialize the output into a fresh empty `ExecuteOutput`; each failure is
mapped to a human-readable string embedding the program path. The second
and third result components carry the process stdout and the
dispatched-hint trace through from `cairo_run`. -/
def ExecuteArgs.exec (args : ExecuteArgs) :
    Except String ExecuteOutput × List Nat × List String :=
  match cairo_run args.program "main" false [(hint_code, ⟨greater_than_hint⟩)] with
  | (Except.error e, stdout, dispatched) =>
    (Except.error ("failed to run the program \"" ++ args.program.path ++ "\": " ++ e),
      stdout, dispatched)
  | (Except.ok runner, stdout, dispatched) =>
    match runner.write_output (ExecuteOutput.mk []) with
    | Except.error e =>
      (Except.error ("failed to print the program output \"" ++ args.program.path
        ++ "\": " ++ e), stdout, dispatched)
    | Except.ok output => (Except.ok output, stdout, dispatched)

/-! ### Claim theorems -/

/-- Claim C3: for every input path, `is_json` accepts exactly the existing
regular files carrying the `json` extension, and rejects every other
path with an error. -/
theorem is_json_accepts_exactly (p : PathBuf) :
    (is_json p = Except.ok p ↔
      (p.exists_ = true ∧ p.isFile = true ∧ p.extension = some "json")) ∧
    (¬(p.exists_ = true ∧ p.isFile = true ∧ p.extension = some "json") →
      ∃ msg, is_json p = Except.error msg) := by
  constructor
  · constructor
    · intro h
      by_cases hef : p.exists_ && p.isFile
      · simp only [Bool.and_eq_true] at hef
        refine ⟨hef.1, hef.2, ?_⟩
        cases hx : p.extension with
        | none =>
          simp [is_json, hef.1, hef.2, hx] at h
        | some ext =>
          by_cases hj : ext = "json"
          · rw [hj]
          · simp [is_json, hef.1, hef.2, hx, hj] at h
      · simp only [Bool.and_eq_true, not_and_or, Bool.not_eq_true] at hef
        exfalso
        cases hef with
        | inl hp => simp [is_json, hp] at h
        | inr hp => simp [is_json, hp] at h
    · rintro ⟨he, hf, hx⟩
      simp [is_json, he, hf, hx]
  · intro hnot
    by_cases he : p.exists_ = true
    · by_cases hf : p.isFile = true
      · cases hx : p.extension with
        | none =>
          exact ⟨"\"" ++ p.display ++ "\" is not a json file",
            by simp [is_json, he, hf, hx]⟩
        | some ext =>
          by_cases hj : ext = "json"
          · exact absurd ⟨he, hf, by rw [hx, hj]⟩ hnot
          · exact ⟨"\"" ++ p.display ++ "\" is not a json file",
              by simp [is_json, he, hf, hx, hj]⟩
      · simp only [Bool.not_eq_true] at hf
        exact ⟨"\"" ++ p.display ++ "\" is not a valid file",
          by simp [is_json, hf]⟩
    · simp only [Bool.not_eq_true] at he
      exact ⟨"\"" ++ p.display ++ "\" is not a valid file",
        by simp [is_json, he]⟩

/-- Witness for C3: a concrete existing regular `.json` file is accepted;
a concrete existing regular `.txt` file is rejected. -/
theorem is_json_accepts_exactly_witness :
    is_json (PathBuf.mk "program.json" true true (some "json")) =
      Except.ok (PathBuf.mk "program.json" true true (some "json")) ∧
    ∃ msg, is_json (PathBuf.mk "program.txt" true true (some "txt")) =
      Except.error msg :=
  ⟨(is_json_accepts_exactly (PathBuf.mk "program.json" true true (some "json"))).1.mpr
      (by refine ⟨rfl, rfl, rfl⟩),
    (is_json_accepts_exactly (PathBuf.mk "program.txt" true true (some "txt"))).2
      (by simp)⟩

/-- Claim C9: the extension check of `is_json` is case-sensitive and exact, and
the two rejection cases are distinguished: a path that is not an existing
regular file gets the `is not a valid file` message, an existing regular
file whose extension differs from `json` (for example `JSON`) gets the
`is not a json file` message. -/
theorem is_json_error_messages (p : PathBuf) :
    (¬(p.exists_ = true ∧ p.isFile = true) →
      is_json p = Except.error ("\"" ++ p.display ++ "\" is not a valid file")) ∧
    (p.exists_ = true ∧ p.isFile = true ∧ p.extension ≠ some "json" →
      is_json p = Except.error ("\"" ++ p.display ++ "\" is not a json file")) := by
  constructor
  · intro hnot
    have : (p.exists_ && p.isFile) = false := by
      cases hpe : p.exists_ with
      | false => rfl
      | true =>
        cases hpf : p.isFile with
        | false => simp
        | true => exact absurd ⟨hpe, hpf⟩ hnot
    simp [is_json, this]
  · rintro ⟨he, hf, hx⟩
    cases hext : p.extension with
    | none => simp [is_json, he, hf, hext]
    | some ext =>
      have hne : ¬(ext = "json") := by
        intro hcontra
        rw [hcontra] at hext
        exact hx hext
      simp [is_json, he, hf, hext, hne]

/-- Witness for C9: a nonexistent path gets the `not a valid file`
message; an existing regular file with extension `JSON` (wrong case)
gets the `not a json file` message. -/
theorem is_json_error_messages_witness :
    is_json (PathBuf.mk "missing.json" false false (some "json")) =
      Except.error ("\"" ++ "missing.json" ++ "\" is not a valid file") ∧
    is_json (PathBuf.mk "program.JSON" true true (some "JSON")) =
      Except.error ("\"" ++ "program.JSON" ++ "\" is not a json file") :=
  ⟨(is_json_error_messages (PathBuf.mk "missing.json" false false (some "json"))).1
      (by simp),
    (is_json_error_messages (PathBuf.mk "program.JSON" true true (some "JSON"))).2
      (by simp)⟩

/-- Claim C4: rendering the captured output as text succeeds with exactly the
decoded text when the bytes are a valid UTF-8 encoding, and otherwise
fails with a formatting error instead of substituting characters. -/
theorem display_exact_or_error (bs : List Nat) :
    (∃ cs, (∀ c ∈ cs, isValidScalar c = true) ∧ encodeUtf8 cs = bs ∧
      (ExecuteOutput.mk bs).display = Except.ok cs) ∨
    ((∀ cs, (∀ c ∈ cs, isValidScalar c = true) → encodeUtf8 cs ≠ bs) ∧
      (ExecuteOutput.mk bs).display = Except.error FmtError.fmtError) := by
  cases hd : decodeUtf8 bs with
  | some cs =>
    left
    obtain ⟨henc, hval⟩ := decodeUtf8_sound bs cs hd
    exact ⟨cs, hval, henc, by simp [ExecuteOutput.display, hd]⟩
  | none =>
    right
    refine ⟨?_, by simp [ExecuteOutput.display, hd]⟩
    intro cs hval henc
    have hround := decodeUtf8_encodeUtf8 cs hval
    rw [henc] at hround
    rw [hround] at hd
    exact Option.noConfusion hd

/-- Witness for C4: the theorem applied to the concrete byte sequence
`"hi"`. -/
theorem display_exact_or_error_witness :
    (∃ cs, (∀ c ∈ cs, isValidScalar c = true) ∧ encodeUtf8 cs = [104, 105] ∧
      (ExecuteOutput.mk [104, 105]).display = Except.ok cs) ∨
    ((∀ cs, (∀ c ∈ cs, isValidScalar c = true) → encodeUtf8 cs ≠ [104, 105]) ∧
      (ExecuteOutput.mk [104, 105]).display = Except.error FmtError.fmtError) :=
  display_exact_or_error [104, 105]

/-- Claim C10: a successful invocation of `greater_than_hint` leaves the whole
VM state it received unchanged — memory and registers (the `VMProxy`)
and the execution-scope stack are those it started from — and its only
effects are resolving `a` and `b` and emitting the comparison text. -/
theorem greater_than_hint_frame (st : HintState)
    (ids_data : List (String × HintReference)) (ap_tracking : ApTracking)
    (st' : HintState)
    (h : greater_than_hint st ids_data ap_tracking = Except.ok st') :
    st'.vm = st.vm ∧ st'.scopes = st.scopes ∧
    ∃ a b, get_integer_from_var_name "a" st.vm ids_data ap_tracking = Except.ok a ∧
      get_integer_from_var_name "b" st.vm ids_data ap_tracking = Except.ok b ∧
      st'.stdout = st.stdout ++ asciiBytes (if a > b then "true" else "false") ++ [10] := by
  unfold greater_than_hint at h
  cases ha : get_integer_from_var_name "a" st.vm ids_data ap_tracking with
  | error e => rw [ha] at h; exact Except.noConfusion h
  | ok a =>
    rw [ha] at h
    cases hb : get_integer_from_var_name "b" st.vm ids_data ap_tracking with
    | error e => rw [hb] at h; exact Except.noConfusion h
    | ok b =>
      rw [hb] at h
      simp only [Except.ok.injEq] at h
      subst h
      exact ⟨rfl, rfl, a, b, rfl, rfl, rfl⟩

/-- Scenario A fixtures: identifiers `a` and `b` are frame-relative
references at offsets 0 and 1, memory holds `a = 5` and `b = 3` at the
frame base, and the program carries one occurrence of the comparison
hint and writes no output of its own. -/
def aptA : ApTracking := ⟨0, 0⟩

def refA : HintReference := ⟨Register.FP, 0, aptA⟩

def refB : HintReference := ⟨Register.FP, 1, aptA⟩

def idsAB : List (String × HintReference) := [("a", refA), ("b", refB)]

def stA : HintState :=
  ⟨⟨⟨[(0, MaybeRelocatable.int 5), (1, MaybeRelocatable.int 3)]⟩, ⟨2, 0, 0⟩⟩, ⟨[]⟩, []⟩

def callA : HintCall := ⟨hint_code, idsAB, aptA⟩

def progA : CairoProgram := ⟨stA, [callA], [], none⟩

def fileA : ProgramFile := ⟨"scenario_a.json", Except.ok progA⟩

/-- The state after Scenario A's hint: identical except that the text
`true` and a newline were appended to the process stdout. -/
def stA' : HintState := ⟨stA.vm, stA.scopes, asciiBytes "true" ++ [10]⟩

/-- Witness for C10: the frame theorem applied at Scenario A's concrete
state, where `a = 5` and `b = 3` resolve and `true` is emitted. -/
theorem greater_than_hint_frame_witness :
    stA'.vm = stA.vm ∧ stA'.scopes = stA.scopes ∧
    ∃ a b, get_integer_from_var_name "a" stA.vm idsAB aptA = Except.ok a ∧
      get_integer_from_var_name "b" stA.vm idsAB aptA = Except.ok b ∧
      stA'.stdout = stA.stdout ++ asciiBytes (if a > b then "true" else "false") ++ [10] :=
  greater_than_hint_frame stA idsAB aptA stA' (by rfl)

/-- Claim C1 (code bug): running Scenario A succeeds, but the comparison text
`true` reaches only the process stdout while the returned `ExecuteOutput`
sink stays empty — `greater_than_hint` uses `println!`, not the
OutputSink, contradicting the spec's I/O rule. -/
theorem scenario_a_output_goes_to_stdout_not_sink :
    (ExecuteArgs.mk fileA).exec =
      (Except.ok (ExecuteOutput.mk []), asciiBytes "true" ++ [10], [hint_code]) ∧
    asciiBytes "true" ++ [10] ≠ ([] : List Nat) := by
  constructor
  · rfl
  · simp [asciiBytes]

/-- Claim C7: when loading the program file fails, `exec` returns the
`failed to run` error embedding the loader's message, and no hint was
dispatched (the dispatch trace is empty). -/
theorem load_failure_before_dispatch (args : ExecuteArgs) (e : String)
    (hload : args.program.load = Except.error e) :
    (args.exec).1 = Except.error
      ("failed to run the program \"" ++ args.program.path ++ "\": " ++ e) ∧
    (args.exec).2.2 = [] := by
  unfold ExecuteArgs.exec cairo_run
  rw [hload]
  exact ⟨rfl, rfl⟩

/-- Scenario C fixture: a program file whose deserialization fails (the
malformed odd-length hex literal of the repository's test data). -/
def fileC : ProgramFile :=
  ⟨"invalid_odd_length_hex.json", Except.error "Odd number of digits"⟩

/-- Witness for C7: the theorem applied to the concrete malformed file. -/
theorem load_failure_before_dispatch_witness :
    ((ExecuteArgs.mk fileC).exec).1 = Except.error
      ("failed to run the program \"" ++ fileC.path ++ "\": " ++ "Odd number of digits") ∧
    ((ExecuteArgs.mk fileC).exec).2.2 = [] :=
  load_failure_before_dispatch (ExecuteArgs.mk fileC) "Odd number of digits" rfl

/-- Claim C2: a successful `exec` of a program that only writes bytes to the
OutputSink and halts returns exactly those bytes, in write order, with
nothing prepended, interleaved or appended. -/
theorem exec_roundtrip (args : ExecuteArgs) (prog : CairoProgram)
    (hload : args.program.load = Except.ok prog)
    (hnohints : prog.hintCalls = [])
    (hwrite : prog.writeError = none) :
    (args.exec).1 = Except.ok (ExecuteOutput.mk prog.outputChunks.flatten) := by
  simp only [ExecuteArgs.exec, cairo_run, hload, hnohints, runHints,
    CairoRunner.write_output, hwrite]
  simp [ExecuteOutput.writeAll_eq]

/-- Round-trip fixture: a program with no hints that writes the chunks
`"Hi"` then `"!"`. -/
def progW : CairoProgram :=
  ⟨⟨⟨⟨[]⟩, ⟨0, 0, 0⟩⟩, ⟨[]⟩, []⟩, [], [[72, 105], [33]], none⟩

def fileW : ProgramFile := ⟨"valid_program_a.json", Except.ok progW⟩

/-- Witness for C2: the concrete two-chunk program returns exactly the
concatenated bytes. -/
theorem exec_roundtrip_witness :
    ((ExecuteArgs.mk fileW).exec).1 =
      Except.ok (ExecuteOutput.mk [72, 105, 33]) :=
  exec_roundtrip (ExecuteArgs.mk fileW) progW rfl rfl rfl

/-- Claim C5: every run of `exec` either fails — returning only an error
string, with no output value at all — or succeeds returning the full
accumulated sink, the concatenation of everything the program wrote. -/
theorem exec_full_or_error (args : ExecuteArgs) :
    (∃ msg, (args.exec).1 = Except.error msg) ∨
    (∃ prog, args.program.load = Except.ok prog ∧
      (args.exec).1 = Except.ok (ExecuteOutput.mk prog.outputChunks.flatten)) := by
  cases hload : args.program.load with
  | error e =>
    left
    exact ⟨"failed to run the program \"" ++ args.program.path ++ "\": " ++ e,
      by simp only [ExecuteArgs.exec, cairo_run, hload]⟩
  | ok prog =>
    cases hrun : runHints [(hint_code, HintFunc.mk greater_than_hint)]
        prog.initState prog.hintCalls with
    | mk res p2 =>
      obtain ⟨st, tr⟩ := p2
      cases res with
      | some e =>
        left
        exact ⟨"failed to run the program \"" ++ args.program.path ++ "\": "
            ++ e.describe,
          by simp only [ExecuteArgs.exec, cairo_run, hload, hrun]⟩
      | none =>
        cases hw : prog.writeError with
        | some e =>
          left
          exact ⟨"failed to print the program output \"" ++ args.program.path
              ++ "\": " ++ e,
            by simp only [ExecuteArgs.exec, cairo_run, hload, hrun,
              CairoRunner.write_output, hw]⟩
        | none =>
          right
          refine ⟨prog, rfl, ?_⟩
          simp only [ExecuteArgs.exec, cairo_run, hload, hrun,
            CairoRunner.write_output, hw]
          simp [ExecuteOutput.writeAll_eq]

/-- Claim C6: when resolving `a` (or `b`) fails, `greater_than_hint` propagates
exactly that error, the run aborts, and `exec` reports failure with no
output returned. -/
theorem hint_resolution_failure_aborts (args : ExecuteArgs) (prog : CairoProgram)
    (call : HintCall) (e : VirtualMachineError)
    (hload : args.program.load = Except.ok prog)
    (hcalls : prog.hintCalls = [call])
    (hcode : call.code = hint_code)
    (hfail : get_integer_from_var_name "a" prog.initState.vm call.ids_data
        call.ap_tracking = Except.error e ∨
      ∃ a, get_integer_from_var_name "a" prog.initState.vm call.ids_data
          call.ap_tracking = Except.ok a ∧
        get_integer_from_var_name "b" prog.initState.vm call.ids_data
          call.ap_tracking = Except.error e) :
    greater_than_hint prog.initState call.ids_data call.ap_tracking =
      Except.error e ∧
    (args.exec).1 = Except.error
      ("failed to run the program \"" ++ args.program.path ++ "\": "
        ++ e.describe) := by
  have hhint : greater_than_hint prog.initState call.ids_data call.ap_tracking =
      Except.error e := by
    cases hfail with
    | inl h => simp only [greater_than_hint, h]
    | inr h =>
      obtain ⟨a, ha, hb⟩ := h
      simp only [greater_than_hint, ha, hb]
  refine ⟨hhint, ?_⟩
  have hlook : lookupStr call.code [(hint_code, HintFunc.mk greater_than_hint)] =
      some (HintFunc.mk greater_than_hint) := by
    simp [lookupStr, hcode]
  have hrun : runHints [(hint_code, HintFunc.mk greater_than_hint)]
      prog.initState prog.hintCalls = (some e, prog.initState, [call.code]) := by
    rw [hcalls]
    simp only [runHints, hlook, hhint]
  simp only [ExecuteArgs.exec, cairo_run, hload, hrun]

/-- Scenario D fixture: a program whose single comparison-hint occurrence
has an empty identifier table, so resolving `a` fails with
`UnknownIdentifier`. -/
def callD : HintCall := ⟨hint_code, [], aptA⟩

def progD : CairoProgram := ⟨⟨⟨⟨[]⟩, ⟨0, 0, 0⟩⟩, ⟨[]⟩, []⟩, [callD], [], none⟩

def fileD : ProgramFile := ⟨"custom_hint.json", Except.ok progD⟩

/-- Witness for C6: on the concrete Scenario D program, resolution of `a`
fails with `UnknownIdentifier "a"`, the callback propagates it, and
`exec` fails. -/
theorem hint_resolution_failure_aborts_witness :
    greater_than_hint progD.initState callD.ids_data callD.ap_tracking =
      Except.error (VirtualMachineError.unknownIdentifier "a") ∧
    ((ExecuteArgs.mk fileD).exec).1 = Except.error
      ("failed to run the program \"" ++ fileD.path ++ "\": "
        ++ (VirtualMachineError.unknownIdentifier "a").describe) :=
  hint_resolution_failure_aborts (ExecuteArgs.mk fileD) progD callD
    (VirtualMachineError.unknownIdentifier "a") rfl rfl rfl (Or.inl rfl)

/-- The text of one string occurs contiguously inside the concatenation
that surrounds it. -/
theorem mid_infix_of_append (pre mid suf : String) :
    List.IsInfix mid.data (pre ++ mid ++ suf).data :=
  ⟨pre.data, suf.data, by simp [String.data_append]⟩

/-- A string is an infix of a concatenation that ends with it. -/
theorem last_infix_of_append (pre last : String) :
    List.IsInfix last.data (pre ++ last).data :=
  ⟨pre.data, [], by simp [String.data_append]⟩

/-- Claim C8: every error `exec` returns is one of the two human-readable
message forms, embedding both the original input file path and the
underlying failure's description. -/
theorem exec_error_embeds_path_and_cause (args : ExecuteArgs) (msg : String)
    (h : (args.exec).1 = Except.error msg) :
    ∃ desc,
      (msg = "failed to run the program \"" ++ args.program.path ++ "\": " ++ desc ∨
        msg = "failed to print the program output \"" ++ args.program.path
          ++ "\": " ++ desc) ∧
      List.IsInfix args.program.path.data msg.data ∧
      List.IsInfix desc.data msg.data := by
  cases hload : args.program.load with
  | error e =>
    have hmsg : msg = "failed to run the program \"" ++ args.program.path
        ++ "\": " ++ e := by
      have hx : (args.exec).1 = Except.error
          ("failed to run the program \"" ++ args.program.path ++ "\": " ++ e) := by
        simp only [ExecuteArgs.exec, cairo_run, hload]
      rw [hx] at h
      exact (Except.error.inj h).symm
    subst hmsg
    refine ⟨e, Or.inl rfl, ?_, ?_⟩
    · have := mid_infix_of_append "failed to run the program \""
        args.program.path ("\": " ++ e)
      simpa [String.data_append, List.append_assoc] using this
    · exact last_infix_of_append
        ("failed to run the program \"" ++ args.program.path ++ "\": ") e
  | ok prog =>
    cases hrun : runHints [(hint_code, HintFunc.mk greater_than_hint)]
        prog.initState prog.hintCalls with
    | mk res p2 =>
      obtain ⟨st, tr⟩ := p2
      cases res with
      | some e =>
        have hmsg : msg = "failed to run the program \"" ++ args.program.path
            ++ "\": " ++ e.describe := by
          have hx : (args.exec).1 = Except.error
              ("failed to run the program \"" ++ args.program.path ++ "\": "
                ++ e.describe) := by
            simp only [ExecuteArgs.exec, cairo_run, hload, hrun]
          rw [hx] at h
          exact (Except.error.inj h).symm
        subst hmsg
        refine ⟨e.describe, Or.inl rfl, ?_, ?_⟩
        · have := mid_infix_of_append "failed to run the program \""
            args.program.path ("\": " ++ e.describe)
          simpa [String.data_append, List.append_assoc] using this
        · exact last_infix_of_append
            ("failed to run the program \"" ++ args.program.path ++ "\": ")
            e.describe
      | none =>
        cases hw : prog.writeError with
        | some e =>
          have hmsg : msg = "failed to print the program output \""
              ++ args.program.path ++ "\": " ++ e := by
            have hx : (args.exec).1 = Except.error
                ("failed to print the program output \"" ++ args.program.path
                  ++ "\": " ++ e) := by
              simp only [ExecuteArgs.exec, cairo_run, hload, hrun,
                CairoRunner.write_output, hw]
            rw [hx] at h
            exact (Except.error.inj h).symm
          subst hmsg
          refine ⟨e, Or.inr rfl, ?_, ?_⟩
          · have := mid_infix_of_append "failed to print the program output \""
              args.program.path ("\": " ++ e)
            simpa [String.data_append, List.append_assoc] using this
          · exact last_infix_of_append
              ("failed to print the program output \"" ++ args.program.path
                ++ "\": ") e
        | none =>
          exfalso
          have hx : (args.exec).1 = Except.ok
              ((ExecuteOutput.mk []).writeAll prog.outputChunks) := by
            simp only [ExecuteArgs.exec, cairo_run, hload, hrun,
              CairoRunner.write_output, hw]
          rw [hx] at h
          exact Except.noConfusion h

/-- Load-failure fixture for the error-message claim. -/
def fileE : ProgramFile := ⟨"broken.json", Except.error "loader: bad magic"⟩

/-- Witness for C8: the theorem applied to a concrete failing run. -/
theorem exec_error_embeds_path_and_cause_witness :
    ∃ desc,
      ("failed to run the program \"" ++ fileE.path ++ "\": " ++ "loader: bad magic" =
          "failed to run the program \"" ++ fileE.path ++ "\": " ++ desc ∨
        "failed to run the program \"" ++ fileE.path ++ "\": " ++ "loader: bad magic" =
          "failed to print the program output \"" ++ fileE.path ++ "\": " ++ desc) ∧
      List.IsInfix fileE.path.data
        ("failed to run the program \"" ++ fileE.path ++ "\": "
          ++ "loader: bad magic").data ∧
      List.IsInfix desc.data
        ("failed to run the program \"" ++ fileE.path ++ "\": "
          ++ "loader: bad magic").data :=
  exec_error_embeds_path_and_cause (ExecuteArgs.mk fileE)
    ("failed to run the program \"" ++ fileE.path ++ "\": " ++ "loader: bad magic")
    (by rfl)

end CairoFoundry
